import Mathlib

/-!
Shallow embedding of the order-handling core of the grid trading bot:
the balance tracker's fill accounting, the order book's open-order view
and status updates, the order status tracker's polling handler, and the
perpetual live execution strategy's market-order retry loop.

Real-number quantities of the source are modelled as rationals; each
exchange interaction is modelled as an explicit response parameter.
-/

namespace GridBot

/-- Order status values.  Modelled from the spec: the `OrderStatus` enum
lives in `order.py`, which is not under `src/`; spec §3 lists
`status ∈ {OPEN, CLOSED, CANCELED, EXPIRED, UNKNOWN}` and the parser in
`perpetual_live_order_execution_strategy.py` maps a missing status to
`"unknown"`. -/
inductive OrderStatus where
  | «open»
  | closed
  | canceled
  | expired
  | unknown
  deriving DecidableEq, Repr

/-- Order side, `BUY` or `SELL` (spec §3, used throughout `src/`). -/
inductive OrderSide where
  | buy
  | sell
  deriving DecidableEq, Repr

/-- The mutable balance state of `BalanceTracker`
(`src/core/order_handling/balance_tracker.py`): main fiat balance, main
crypto balance, accumulated fees, and the two reserved buckets. -/
structure BalanceTracker where
  balance : ℚ
  crypto_balance : ℚ
  total_fees : ℚ
  reserved_fiat : ℚ
  reserved_crypto : ℚ
  deriving DecidableEq, Repr

namespace BalanceTracker

/-- `BalanceTracker._update_after_buy_order_filled`: compute the fee and
total cost, deduct the cost from the reserved fiat, and when the
reservation goes negative add the (negative) residual to the main fiat
balance and zero the reservation; then credit the crypto and the fee.
The fee computation `fee_calculator.calculate_fee(quantity * price)` is
abstracted as the function parameter `feeOf` (the `FeeCalculator` source
is not under `src/`). -/
def _update_after_buy_order_filled (bt : BalanceTracker) (feeOf : ℚ → ℚ)
    (quantity price : ℚ) : BalanceTracker :=
  let fee := feeOf (quantity * price)
  let total_cost := quantity * price + fee
  let reserved_fiat := bt.reserved_fiat - total_cost
  let (balance, reserved_fiat) :=
    if reserved_fiat < 0 then (bt.balance + reserved_fiat, 0)
    else (bt.balance, reserved_fiat)
  { bt with
    balance := balance
    reserved_fiat := reserved_fiat
    crypto_balance := bt.crypto_balance + quantity
    total_fees := bt.total_fees + fee }

/-- `BalanceTracker._update_after_sell_order_filled`: compute the fee and
the sale proceeds, deduct the sold quantity from the reserved crypto, and
when the reservation goes negative add the absolute value of the residual
to the main crypto balance (`self.crypto_balance += abs(self.reserved_crypto)`)
and zero the reservation; then credit the proceeds and the fee. -/
def _update_after_sell_order_filled (bt : BalanceTracker) (feeOf : ℚ → ℚ)
    (quantity price : ℚ) : BalanceTracker :=
  let fee := feeOf (quantity * price)
  let sale_proceeds := quantity * price - fee
  let reserved_crypto := bt.reserved_crypto - quantity
  let (crypto_balance, reserved_crypto) :=
    if reserved_crypto < 0 then (bt.crypto_balance + |reserved_crypto|, 0)
    else (bt.crypto_balance, reserved_crypto)
  { bt with
    crypto_balance := crypto_balance
    reserved_crypto := reserved_crypto
    balance := bt.balance + sale_proceeds
    total_fees := bt.total_fees + fee }

/-- Aggregate base (crypto) total: `crypto_balance + reserved_crypto`
(the value of `get_adjusted_crypto_balance`). -/
def adjusted_crypto_balance (bt : BalanceTracker) : ℚ :=
  bt.crypto_balance + bt.reserved_crypto

end BalanceTracker

/-- C1: for a sell fill whose quantity exceeds the reserved crypto, the
sell-fill update of the balance tracker violates aggregate base
conservation.  With `reserved_crypto = 0`, `crypto_balance = 10`, a sell
fill of quantity `1` at price `100` with zero fee, the code sets
`crypto_balance` to `11` (it adds the absolute shortfall instead of
deducting it), so the aggregate base total rises by `1` instead of
falling by the filled quantity `1` as the claim states. -/
theorem C1_sell_fill_breaks_base_conservation :
    let bt0 : BalanceTracker :=
      { balance := 0, crypto_balance := 10, total_fees := 0,
        reserved_fiat := 0, reserved_crypto := 0 }
    let bt1 := bt0._update_after_sell_order_filled (fun _ => 0) 1 100
    bt1.crypto_balance = 11 ∧ bt1.reserved_crypto = 0 ∧
    bt1.adjusted_crypto_balance = bt0.adjusted_crypto_balance + 1 ∧
    bt1.adjusted_crypto_balance ≠ bt0.adjusted_crypto_balance - 1 := by
  refine ⟨by norm_num [BalanceTracker._update_after_sell_order_filled], ?_, ?_, ?_⟩ <;>
    norm_num [BalanceTracker._update_after_sell_order_filled,
      BalanceTracker.adjusted_crypto_balance]

/-- The fields of an `Order` that the order book and the status tracker
read: the exchange-assigned identifier, the side, the mutable status and
the filled amount (spec §3; constructed by `_parse_order_result` in
`src/core/order_handling/execution_strategy/perpetual_live_order_execution_strategy.py`). -/
structure Order where
  identifier : String
  side : OrderSide
  status : OrderStatus
  filled : ℚ
  deriving DecidableEq, Repr

/-- Modelled from the spec: `Order.is_open` lives in `order.py`, which is
not under `src/`.  Spec §3 gives the status set and §4.5 has the tracker
poll "open orders"; an order is open iff its status is `OPEN`. -/
def Order.is_open (o : Order) : Bool :=
  o.status = OrderStatus.«open»

/-- The order lists of `OrderBook` (`src/core/order_handling/order_book.py`)
traversed by `get_open_orders` and `update_order_status`: all buy orders
and all sell orders.  (`non_grid_orders` and `order_to_grid_map` are not
read by the operations embedded here.) -/
structure OrderBook where
  buy_orders : List Order
  sell_orders : List Order
  deriving DecidableEq, Repr

namespace OrderBook

/-- `OrderBook.get_open_orders`: all orders of `buy_orders + sell_orders`
for which `order.is_open()` holds. -/
def get_open_orders (b : OrderBook) : List Order :=
  (b.buy_orders ++ b.sell_orders).filter (fun o => o.is_open)

/-- The loop body of `OrderBook.update_order_status`: set the status of
the first order in the list whose `identifier` matches, leaving the rest
unchanged (the Python loop breaks after the first match). -/
def set_first_status : List Order → String → OrderStatus → List Order
  | [], _, _ => []
  | o :: rest, order_id, new_status =>
    if o.identifier = order_id then { o with status := new_status } :: rest
    else o :: set_first_status rest order_id new_status

/-- `OrderBook.update_order_status`: iterate `buy_orders + sell_orders`
and set the status of the first order with the matching id.  Since the
Python loop breaks at the first match of the concatenation, this updates
the first match of `buy_orders` when one exists and otherwise the first
match of `sell_orders`. -/
def update_order_status (b : OrderBook) (order_id : String)
    (new_status : OrderStatus) : OrderBook :=
  if b.buy_orders.any (fun o => o.identifier = order_id) then
    { b with buy_orders := set_first_status b.buy_orders order_id new_status }
  else
    { b with sell_orders := set_first_status b.sell_orders order_id new_status }

/-- All orders the book stores on the two side lists, in traversal order. -/
def all_orders (b : OrderBook) : List Order :=
  b.buy_orders ++ b.sell_orders

end OrderBook

/-- Events published on the event bus by the status tracker:
`ORDER_FILLED` and `ORDER_CANCELLED`, each carrying the remote order. -/
inductive Event where
  | order_filled (o : Order)
  | order_cancelled (o : Order)
  deriving DecidableEq, Repr

/-- The `try` body of `OrderStatusTracker._handle_order_status_change`
(`src/core/order_handling/order_status_tracker.py`): `UNKNOWN` logs and
raises `ValueError`; `CLOSED` updates the book and publishes
`ORDER_FILLED`; `CANCELED` updates the book and publishes
`ORDER_CANCELLED`; `OPEN` only logs (partial fill or still open); any
other status only logs a warning. -/
def handle_order_status_change_body (b : OrderBook) (remote_order : Order) :
    Except String (OrderBook × List Event) :=
  if remote_order.status = OrderStatus.unknown then
    .error "Order data from the exchange is missing the status field."
  else if remote_order.status = OrderStatus.closed then
    .ok (b.update_order_status remote_order.identifier OrderStatus.closed,
      [Event.order_filled remote_order])
  else if remote_order.status = OrderStatus.canceled then
    .ok (b.update_order_status remote_order.identifier OrderStatus.canceled,
      [Event.order_cancelled remote_order])
  else
    .ok (b, [])

/-- `OrderStatusTracker._handle_order_status_change`: the whole body is
wrapped in `try/except Exception`, so the `ValueError` raised for
`UNKNOWN` is caught inside the handler itself — the caller sees no
exception, no book change and no event. -/
def handle_order_status_change (b : OrderBook) (remote_order : Order) :
    OrderBook × List Event :=
  match handle_order_status_change_body b remote_order with
  | .ok r => r
  | .error _ => (b, [])

/-- Handling of one polled order inside a cycle
(`OrderStatusTracker._query_and_handle_order`): fetch the remote order for
the local order's identifier and run the status-change handler,
accumulating the published events. -/
def poll_step (remote : String → Order) (acc : OrderBook × List Event)
    (o : Order) : OrderBook × List Event :=
  let r := handle_order_status_change acc.1 (remote o.identifier)
  (r.1, acc.2 ++ r.2)

/-- One polling cycle, `OrderStatusTracker._process_open_orders`: snapshot
the open orders, then for each fetch the remote order
(`order_execution_strategy.get_order(local.identifier, ...)`, modelled as
the response function `remote`) and run the status-change handler.
Returns the updated book and the events published during the cycle. -/
def process_open_orders (b : OrderBook) (remote : String → Order) :
    OrderBook × List Event :=
  b.get_open_orders.foldl (poll_step remote) (b, [])

/-- Number of `ORDER_FILLED` events for the given order id in a list of
published events. -/
def filled_count (order_id : String) (events : List Event) : ℕ :=
  events.countP (fun e =>
    match e with
    | .order_filled o => o.identifier = order_id
    | .order_cancelled _ => false)

/-- C4: when the remote order's status is `UNKNOWN`, the handler's body
raises `ValueError` but the handler catches it itself, so the order book
is returned unchanged, no `ORDER_FILLED` or `ORDER_CANCELLED` event is
published, and no exception reaches the polling loop. -/
theorem C4_unknown_status_no_advance (b : OrderBook) (remote_order : Order)
    (h : remote_order.status = OrderStatus.unknown) :
    (∃ msg, handle_order_status_change_body b remote_order = .error msg) ∧
    handle_order_status_change b remote_order = (b, []) := by
  constructor
  · exact ⟨"Order data from the exchange is missing the status field.",
      by simp [handle_order_status_change_body, h]⟩
  · simp [handle_order_status_change, handle_order_status_change_body, h]

/-- Witness for C4 at a concrete book and remote order. -/
theorem C4_unknown_status_no_advance_witness :
    let b : OrderBook :=
      { buy_orders := [⟨"7", OrderSide.buy, OrderStatus.«open», 0⟩],
        sell_orders := [] }
    let r : Order := ⟨"7", OrderSide.buy, OrderStatus.unknown, 0⟩
    r.status = OrderStatus.unknown ∧
    ((∃ msg, handle_order_status_change_body b r = .error msg) ∧
      handle_order_status_change b r = (b, [])) :=
  ⟨rfl, C4_unknown_status_no_advance _ _ rfl⟩

/-- The events one invocation of the status-change handler publishes;
they depend only on the remote order. -/
def events_of (r : Order) : List Event :=
  if r.status = OrderStatus.closed then [Event.order_filled r]
  else if r.status = OrderStatus.canceled then [Event.order_cancelled r]
  else []

/-- The order book one invocation of the status-change handler returns. -/
def book_after (b : OrderBook) (r : Order) : OrderBook :=
  if r.status = OrderStatus.closed then
    b.update_order_status r.identifier OrderStatus.closed
  else if r.status = OrderStatus.canceled then
    b.update_order_status r.identifier OrderStatus.canceled
  else b

theorem handle_order_status_change_eq (b : OrderBook) (r : Order) :
    handle_order_status_change b r = (book_after b r, events_of r) := by
  cases h : r.status <;>
    simp [handle_order_status_change, handle_order_status_change_body,
      book_after, events_of, h]

theorem poll_step_eq (remote : String → Order) (b : OrderBook)
    (evs : List Event) (o : Order) :
    poll_step remote (b, evs) o =
      (book_after b (remote o.identifier),
        evs ++ events_of (remote o.identifier)) := by
  simp [poll_step, handle_order_status_change_eq]

theorem foldl_poll_step_fst (remote : String → Order) (L : List Order)
    (b : OrderBook) (evs : List Event) :
    (L.foldl (poll_step remote) (b, evs)).1 =
      L.foldl (fun b' o => book_after b' (remote o.identifier)) b := by
  induction L generalizing b evs with
  | nil => rfl
  | cons o rest ih =>
    rw [List.foldl_cons, poll_step_eq, List.foldl_cons]
    exact ih _ _

theorem filled_count_append (order_id : String) (e1 e2 : List Event) :
    filled_count order_id (e1 ++ e2) =
      filled_count order_id e1 + filled_count order_id e2 :=
  List.countP_append _ _ _

theorem filled_count_events_of (order_id : String) (r : Order) :
    filled_count order_id (events_of r) =
      if r.identifier = order_id ∧ r.status = OrderStatus.closed then 1
      else 0 := by
  cases h : r.status <;>
    simp [events_of, filled_count, h, List.countP_singleton]

theorem foldl_poll_step_filled_count (remote : String → Order)
    (order_id : String) (L : List Order) (b : OrderBook) (evs : List Event) :
    filled_count order_id ((L.foldl (poll_step remote) (b, evs)).2) =
      filled_count order_id evs +
        L.countP (fun o =>
          decide ((remote o.identifier).identifier = order_id) &&
          decide ((remote o.identifier).status = OrderStatus.closed)) := by
  induction L generalizing b evs with
  | nil => simp
  | cons o rest ih =>
    rw [List.foldl_cons, poll_step_eq, ih, filled_count_append,
      filled_count_events_of, List.countP_cons]
    by_cases h1 : (remote o.identifier).identifier = order_id <;>
      by_cases h2 : (remote o.identifier).status = OrderStatus.closed <;>
        simp [h1, h2] <;> omega

/-- Number of orders with the given identifier stored on the book's two
side lists. -/
def id_count (order_id : String) (b : OrderBook) : ℕ :=
  b.all_orders.countP (fun o => decide (o.identifier = order_id))

/-- All orders of the book carrying the given identifier have status
`CLOSED`. -/
def ids_closed (order_id : String) (b : OrderBook) : Prop :=
  ∀ o ∈ b.all_orders, o.identifier = order_id →
    o.status = OrderStatus.closed

theorem mem_set_first_status {L : List Order} {order_id : String}
    {st : OrderStatus} {o' : Order}
    (h : o' ∈ OrderBook.set_first_status L order_id st) :
    o' ∈ L ∨ ∃ o ∈ L, o.identifier = order_id ∧
      o' = { o with status := st } := by
  induction L with
  | nil => simp [OrderBook.set_first_status] at h
  | cons o rest ih =>
    rw [OrderBook.set_first_status] at h
    by_cases ho : o.identifier = order_id
    · rw [if_pos ho] at h
      rcases List.mem_cons.1 h with h1 | h1
      · exact Or.inr ⟨o, List.mem_cons_self o rest, ho, h1⟩
      · exact Or.inl (List.mem_cons_of_mem _ h1)
    · rw [if_neg ho] at h
      rcases List.mem_cons.1 h with h1 | h1
      · exact Or.inl (h1 ▸ List.mem_cons_self o rest)
      · rcases ih h1 with h2 | ⟨w, hw, hwid, hwe⟩
        · exact Or.inl (List.mem_cons_of_mem _ h2)
        · exact Or.inr ⟨w, List.mem_cons_of_mem _ hw, hwid, hwe⟩

theorem set_first_status_countP_id (L : List Order) (order_id s : String)
    (st : OrderStatus) :
    (OrderBook.set_first_status L order_id st).countP
        (fun o => decide (o.identifier = s)) =
      L.countP (fun o => decide (o.identifier = s)) := by
  induction L with
  | nil => rfl
  | cons o rest ih =>
    rw [OrderBook.set_first_status]
    by_cases ho : o.identifier = order_id
    · simp [ho, List.countP_cons]
    · rw [if_neg ho]
      simp [List.countP_cons, ih]

theorem set_first_status_closes (L : List Order) (order_id : String)
    (st : OrderStatus)
    (h : L.countP (fun o => decide (o.identifier = order_id)) ≤ 1) :
    ∀ o' ∈ OrderBook.set_first_status L order_id st,
      o'.identifier = order_id → o'.status = st := by
  induction L with
  | nil =>
    intro o' h' _
    simp [OrderBook.set_first_status] at h'
  | cons o rest ih =>
    intro o' h' hid
    rw [OrderBook.set_first_status] at h'
    rw [List.countP_cons] at h
    by_cases ho : o.identifier = order_id
    · rw [if_pos ho] at h'
      have hrest : rest.countP (fun o => decide (o.identifier = order_id)) = 0 := by
        simp [ho] at h
        exact List.countP_eq_zero.2 (by simpa using h)
      rcases List.mem_cons.1 h' with h1 | h1
      · subst h1
        rfl
      · exact absurd hid (by simpa using List.countP_eq_zero.1 hrest o' h1)
    · rw [if_neg ho] at h'
      rcases List.mem_cons.1 h' with h1 | h1
      · exact absurd hid (h1 ▸ ho)
      · exact ih (by simpa [ho] using h) o' h1 hid

theorem update_order_status_id_count (b : OrderBook) (order_id s : String)
    (st : OrderStatus) :
    id_count s (b.update_order_status order_id st) = id_count s b := by
  unfold id_count OrderBook.update_order_status OrderBook.all_orders
  split <;> simp [List.countP_append, set_first_status_countP_id]

theorem mem_update_order_status {b : OrderBook} {order_id : String}
    {st : OrderStatus} {o' : Order}
    (h : o' ∈ (b.update_order_status order_id st).all_orders) :
    o' ∈ b.all_orders ∨ ∃ o ∈ b.all_orders, o.identifier = order_id ∧
      o' = { o with status := st } := by
  unfold OrderBook.update_order_status at h
  split at h <;> rw [OrderBook.all_orders] at h <;>
    rcases List.mem_append.1 h with h1 | h1
  · rcases mem_set_first_status h1 with h2 | ⟨w, hw, hwid, hwe⟩
    · exact Or.inl (List.mem_append.2 (Or.inl h2))
    · exact Or.inr ⟨w, List.mem_append.2 (Or.inl hw), hwid, hwe⟩
  · exact Or.inl (List.mem_append.2 (Or.inr h1))
  · exact Or.inl (List.mem_append.2 (Or.inl h1))
  · rcases mem_set_first_status h1 with h2 | ⟨w, hw, hwid, hwe⟩
    · exact Or.inl (List.mem_append.2 (Or.inr h2))
    · exact Or.inr ⟨w, List.mem_append.2 (Or.inr hw), hwid, hwe⟩

theorem update_order_status_closes (b : OrderBook) (order_id : String)
    (hcnt : id_count order_id b ≤ 1) :
    ids_closed order_id (b.update_order_status order_id OrderStatus.closed) := by
  intro o' ho' hid
  rw [id_count, OrderBook.all_orders, List.countP_append] at hcnt
  rw [OrderBook.update_order_status] at ho'
  split at ho'
  case isTrue hany =>
    rw [OrderBook.all_orders] at ho'
    have hbuy : 0 < b.buy_orders.countP (fun o => decide (o.identifier = order_id)) := by
      rcases List.any_eq_true.1 hany with ⟨x, hx, hpx⟩
      exact List.countP_pos_iff.2 ⟨x, hx, hpx⟩
    rcases List.mem_append.1 ho' with h1 | h1
    · exact set_first_status_closes _ _ _ (by omega) o' h1 hid
    · have hz : b.sell_orders.countP (fun o => decide (o.identifier = order_id)) = 0 := by
        omega
      exact absurd hid (by simpa using List.countP_eq_zero.1 hz o' h1)
  case isFalse hany =>
    rw [OrderBook.all_orders] at ho'
    rcases List.mem_append.1 ho' with h1 | h1
    · have := List.any_eq_false.1 (Bool.eq_false_iff.2 hany) o' h1
      exact absurd hid (by simpa using this)
    · exact set_first_status_closes _ _ _ (by omega) o' h1 hid

theorem update_order_status_preserves_of_ne (b : OrderBook)
    (order_id s : String) (st : OrderStatus) (hne : s ≠ order_id)
    (h : ids_closed order_id b) :
    ids_closed order_id (b.update_order_status s st) := by
  intro o' ho' hid
  rcases mem_update_order_status ho' with h1 | ⟨o, hoL, hoid, he⟩
  · exact h o' h1 hid
  · subst he
    exact absurd (hoid ▸ hid) hne

theorem update_order_status_preserves_closed (b : OrderBook)
    (order_id s : String) (h : ids_closed order_id b) :
    ids_closed order_id (b.update_order_status s OrderStatus.closed) := by
  intro o' ho' hid
  rcases mem_update_order_status ho' with h1 | ⟨o, hoL, hoid, he⟩
  · exact h o' h1 hid
  · subst he
    rfl

theorem book_after_id_count (b : OrderBook) (r : Order) (s : String) :
    id_count s (book_after b r) = id_count s b := by
  cases h : r.status <;>
    simp [book_after, h, update_order_status_id_count]

theorem book_after_preserves (remote : String → Order) (order_id : String)
    (hr : ∀ s, (remote s).identifier = s)
    (hc : (remote order_id).status = OrderStatus.closed)
    (s : String) (b : OrderBook) (h : ids_closed order_id b) :
    ids_closed order_id (book_after b (remote s)) := by
  cases hst : (remote s).status with
  | closed =>
    rw [book_after, if_pos hst]
    exact update_order_status_preserves_closed _ _ _ h
  | canceled =>
    rw [book_after, if_neg (by simp [hst]), if_pos hst, hr s]
    refine update_order_status_preserves_of_ne _ _ _ _ ?_ h
    intro he
    rw [he] at hst
    rw [hc] at hst
    exact OrderStatus.noConfusion hst
  | «open» => rw [book_after, if_neg (by simp [hst]), if_neg (by simp [hst])]; exact h
  | expired => rw [book_after, if_neg (by simp [hst]), if_neg (by simp [hst])]; exact h
  | unknown => rw [book_after, if_neg (by simp [hst]), if_neg (by simp [hst])]; exact h

theorem foldl_book_after_preserves (remote : String → Order)
    (order_id : String) (hr : ∀ s, (remote s).identifier = s)
    (hc : (remote order_id).status = OrderStatus.closed)
    (L : List Order) (b : OrderBook) (h : ids_closed order_id b) :
    ids_closed order_id
      (L.foldl (fun b' o => book_after b' (remote o.identifier)) b) := by
  induction L generalizing b with
  | nil => exact h
  | cons o rest ih =>
    rw [List.foldl_cons]
    exact ih _ (book_after_preserves remote order_id hr hc _ _ h)

theorem foldl_book_after_id_count (remote : String → Order)
    (L : List Order) (b : OrderBook) (s : String) :
    id_count s (L.foldl (fun b' o => book_after b' (remote o.identifier)) b) =
      id_count s b := by
  induction L generalizing b with
  | nil => rfl
  | cons o rest ih =>
    rw [List.foldl_cons, ih, book_after_id_count]

theorem foldl_book_after_closes (remote : String → Order)
    (order_id : String) (hr : ∀ s, (remote s).identifier = s)
    (hc : (remote order_id).status = OrderStatus.closed)
    (L : List Order) (b : OrderBook)
    (hcnt : id_count order_id b ≤ 1)
    (hin : ∃ o ∈ L, o.identifier = order_id) :
    ids_closed order_id
      (L.foldl (fun b' o => book_after b' (remote o.identifier)) b) := by
  induction L generalizing b with
  | nil =>
    rcases hin with ⟨o, ho, _⟩
    simp at ho
  | cons o rest ih =>
    rw [List.foldl_cons]
    by_cases ho : o.identifier = order_id
    · have hb : book_after b (remote o.identifier) =
          b.update_order_status order_id OrderStatus.closed := by
        rw [ho, book_after, if_pos hc, hr order_id]
      rw [hb]
      exact foldl_book_after_preserves remote order_id hr hc rest _
        (update_order_status_closes b order_id hcnt)
    · rcases hin with ⟨w, hw, hwid⟩
      have hw' : w ∈ rest := by
        rcases List.mem_cons.1 hw with h2 | h2
        · exact absurd (h2 ▸ hwid) ho
        · exact h2
      exact ih _ (by rw [book_after_id_count]; exact hcnt) ⟨w, hw', hwid⟩

theorem countP_eq_one_unique {α : Type} (p : α → Bool) {L : List α}
    (h : L.countP p = 1) {a : α} (ha : a ∈ L) (hpa : p a = true) :
    ∀ x ∈ L, p x = true → x = a := by
  induction L with
  | nil => simp at ha
  | cons c rest ih =>
    rw [List.countP_cons] at h
    by_cases hc : p c = true
    · have hzero : rest.countP p = 0 := by
        simp [hc] at h
        exact List.countP_eq_zero.2 (by simpa using h)
      have hnone := List.countP_eq_zero.1 hzero
      intro x hx hpx
      have hxc : x = c := by
        rcases List.mem_cons.1 hx with h1 | h1
        · exact h1
        · exact absurd hpx (by simpa using hnone x h1)
      have hac : a = c := by
        rcases List.mem_cons.1 ha with h1 | h1
        · exact h1
        · exact absurd hpa (by simpa using hnone a h1)
      rw [hxc, hac]
    · have h1 : rest.countP p = 1 := by
        simp [hc] at h
        exact h
      have ha' : a ∈ rest := by
        rcases List.mem_cons.1 ha with h2 | h2
        · exact absurd (h2 ▸ hpa) hc
        · exact h2
      intro x hx hpx
      have hx' : x ∈ rest := by
        rcases List.mem_cons.1 hx with h2 | h2
        · exact absurd (h2 ▸ hpx) hc
        · exact h2
      exact ih h1 ha' x hx' hpx

/-- C2: when an open order with a unique identifier is reported `CLOSED`
by the exchange in two consecutive polling cycles, `ORDER_FILLED` for
that order is published exactly once: the first cycle publishes it and
sets the order's local status to `CLOSED`, so the order is no longer
returned by `get_open_orders` and the second cycle publishes no
`ORDER_FILLED` for it. -/
theorem C2_closed_poll_publishes_filled_once
    (b : OrderBook) (remote : String → Order) (oid : String) (o : Order)
    (hr : ∀ s, (remote s).identifier = s)
    (ho : o ∈ b.all_orders)
    (hoid : o.identifier = oid)
    (hopen : o.status = OrderStatus.«open»)
    (huniq : b.all_orders.countP (fun x => decide (x.identifier = oid)) = 1)
    (hclosed : (remote oid).status = OrderStatus.closed) :
    filled_count oid (process_open_orders b remote).2 = 1 ∧
    (∀ o' ∈ (process_open_orders b remote).1.all_orders,
        o'.identifier = oid → o'.status = OrderStatus.closed) ∧
    (∀ o' ∈ (process_open_orders b remote).1.get_open_orders,
        o'.identifier ≠ oid) ∧
    filled_count oid
      (process_open_orders (process_open_orders b remote).1 remote).2 = 0 := by
  have hopen_bool : o.is_open = true := by simp [Order.is_open, hopen]
  have hosnap : o ∈ b.get_open_orders := by
    rw [OrderBook.get_open_orders]
    rw [OrderBook.all_orders] at ho
    exact List.mem_filter.2 ⟨ho, hopen_bool⟩
  have huniq_mem : ∀ x ∈ b.all_orders, x.identifier = oid → x = o := by
    intro x hx hxid
    exact countP_eq_one_unique _ huniq ho (by simp [hoid]) x hx (by simp [hxid])
  have hsnapcount :
      b.get_open_orders.countP (fun x => decide (x.identifier = oid)) = 1 := by
    rw [OrderBook.get_open_orders, List.countP_filter, ← huniq,
      OrderBook.all_orders]
    refine List.countP_congr ?_
    intro x hx
    by_cases hxid : x.identifier = oid
    · have hx' : x = o := huniq_mem x (by rw [OrderBook.all_orders]; exact hx) hxid
      subst hx'
      simp [hxid, hopen_bool]
    · simp [hxid]
  have hpredcount :
      b.get_open_orders.countP (fun x =>
          decide ((remote x.identifier).identifier = oid) &&
          decide ((remote x.identifier).status = OrderStatus.closed)) = 1 := by
    rw [← hsnapcount]
    refine List.countP_congr ?_
    intro x hx
    rw [hr x.identifier]
    by_cases hxid : x.identifier = oid
    · simp [hxid, hclosed]
    · simp [hxid]
  have he1 : filled_count oid (process_open_orders b remote).2 = 1 := by
    rw [process_open_orders, foldl_poll_step_filled_count, hpredcount]
    rfl
  have hb1 : (process_open_orders b remote).1 =
      b.get_open_orders.foldl
        (fun b' o' => book_after b' (remote o'.identifier)) b := by
    rw [process_open_orders, foldl_poll_step_fst]
  have hclosed1 : ids_closed oid (process_open_orders b remote).1 := by
    rw [hb1]
    refine foldl_book_after_closes remote oid hr hclosed _ b ?_ ⟨o, hosnap, hoid⟩
    exact le_of_eq huniq
  have hopen2 : ∀ o' ∈ (process_open_orders b remote).1.get_open_orders,
      o'.identifier ≠ oid := by
    intro o' h' heq
    rw [OrderBook.get_open_orders] at h'
    have hmem := (List.mem_filter.1 h').1
    have hopen' := (List.mem_filter.1 h').2
    have hcl : o'.status = OrderStatus.closed := by
      refine hclosed1 o' ?_ heq
      rw [OrderBook.all_orders]
      exact hmem
    rw [Order.is_open, hcl] at hopen'
    simp at hopen'
  have he2 : filled_count oid
      (process_open_orders (process_open_orders b remote).1 remote).2 = 0 := by
    generalize hb' : (process_open_orders b remote).1 = b1 at hopen2
    rw [process_open_orders, foldl_poll_step_filled_count]
    have hz : b1.get_open_orders.countP (fun x =>
        decide ((remote x.identifier).identifier = oid) &&
        decide ((remote x.identifier).status = OrderStatus.closed)) = 0 := by
      refine List.countP_eq_zero.2 ?_
      intro x hx
      have hne := hopen2 x hx
      simp [hr x.identifier, hne]
    rw [hz]
    rfl
  exact ⟨he1, hclosed1, hopen2, he2⟩

/-- A one-order book used to witness the two-cycle dedup theorem. -/
def witness_book : OrderBook :=
  { buy_orders := [⟨"1", OrderSide.buy, OrderStatus.«open», 0⟩],
    sell_orders := [] }

/-- An exchange response that reports every order fully filled. -/
def witness_remote : String → Order :=
  fun s => ⟨s, OrderSide.buy, OrderStatus.closed, 1⟩

/-- The single open order of `witness_book`. -/
def witness_order : Order :=
  ⟨"1", OrderSide.buy, OrderStatus.«open», 0⟩

/-- Witness for C2: a book holding one open buy order with id `"1"` and
an exchange that reports every order `CLOSED`. -/
theorem C2_closed_poll_publishes_filled_once_witness :
    (∀ s, (witness_remote s).identifier = s) ∧
    witness_order ∈ witness_book.all_orders ∧
    witness_order.identifier = "1" ∧
    witness_order.status = OrderStatus.«open» ∧
    witness_book.all_orders.countP (fun x => decide (x.identifier = "1")) = 1 ∧
    (witness_remote "1").status = OrderStatus.closed ∧
    (filled_count "1" (process_open_orders witness_book witness_remote).2 = 1 ∧
      (∀ o' ∈ (process_open_orders witness_book witness_remote).1.all_orders,
          o'.identifier = "1" → o'.status = OrderStatus.closed) ∧
      (∀ o' ∈ (process_open_orders witness_book witness_remote).1.get_open_orders,
          o'.identifier ≠ "1") ∧
      filled_count "1"
        (process_open_orders
          (process_open_orders witness_book witness_remote).1
          witness_remote).2 = 0) :=
  ⟨fun _ => rfl, by decide, rfl, rfl, by decide, rfl,
    C2_closed_poll_publishes_filled_once witness_book witness_remote "1"
      witness_order (fun _ => rfl) (by decide) rfl rfl (by decide) rfl⟩

/-- Outcome of one `place_order` + `_parse_order_result` round-trip
inside `execute_market_order`
(`src/core/order_handling/execution_strategy/perpetual_live_order_execution_strategy.py`):
either a parsed order (its status and filled amount) or an exception
from the exchange call. -/
inductive AttemptOutcome where
  | response (status : OrderStatus) (filled : ℚ)
  | exn
  deriving DecidableEq, Repr

/-- One market-order submission: the price and quantity passed to
`exchange_service.place_order`. -/
structure Submission where
  price : ℚ
  quantity : ℚ
  deriving DecidableEq, Repr

/-- Result of `execute_market_order`: the submissions made, the results
of the `_retry_cancel_order` calls triggered by `OPEN` responses, and
the returned order; `none` models raising `OrderExecutionFailedError`
after all retries. -/
structure MarketOrderRun where
  submissions : List Submission
  cancels : List Bool
  result : Option (OrderStatus × ℚ)
  deriving DecidableEq, Repr

/-- `PerpetualLiveOrderExecutionStrategy._adjust_price`: replace the
base price by the exchange mark price when one is fetched and truthy
(`if mark_price:` — `0.0` is falsy in Python; a fetch failure keeps the
original price), then apply
`adjustment = max_slippage / max_retries * attempt`, upward for buys
and downward for sells. -/
def _adjust_price (max_slippage : ℚ) (max_retries : ℕ)
    (order_side : OrderSide) (price : ℚ) (attempt : ℕ)
    (mark_price : Option ℚ) : ℚ :=
  let price := match mark_price with
    | some m => if m = 0 then price else m
    | none => price
  let adjustment := max_slippage / max_retries * attempt
  if order_side = OrderSide.buy then price * (1 + adjustment)
  else price * (1 - adjustment)

/-- `PerpetualLiveOrderExecutionStrategy._retry_cancel_order`: up to
`max_retries` cancel attempts, returning `true` as soon as one reports
status `"canceled"` and `false` when all attempts fail. -/
def _retry_cancel_order (max_retries : ℕ) (cancel_resp : ℕ → Bool) : Bool :=
  (List.range max_retries).any cancel_resp

/-- The retry loop of `execute_market_order`
(`for attempt in range(self.max_retries)`), recursing on the number of
remaining attempts.  `resp attempt` is what the submission at that
attempt produced; `mark attempt` is the mark price `_adjust_price`
fetches after that attempt; `cancel_resp attempt` are the cancel
responses seen by `_retry_cancel_order` after an `OPEN` response at
that attempt.  A `CLOSED` response returns the parsed order; an `OPEN`
response runs `_handle_partial_fill`, which cancels and only logs the
outcome; every non-`CLOSED` response ends the iteration by recomputing
the price with `_adjust_price` at the current attempt index, while an
exception skips that recomputation; exhausting the loop models raising
`OrderExecutionFailedError`. -/
def market_order_attempts (max_retries : ℕ) (max_slippage : ℚ)
    (resp : ℕ → AttemptOutcome) (mark : ℕ → Option ℚ)
    (cancel_resp : ℕ → ℕ → Bool) (order_side : OrderSide) (quantity : ℚ) :
    ℕ → ℕ → ℚ → MarketOrderRun
  | _, 0, _ => ⟨[], [], none⟩
  | attempt, remaining + 1, price =>
    match resp attempt with
    | .exn =>
      let rest := market_order_attempts max_retries max_slippage resp mark
        cancel_resp order_side quantity (attempt + 1) remaining price
      ⟨⟨price, quantity⟩ :: rest.submissions, rest.cancels, rest.result⟩
    | .response status filled =>
      if status = OrderStatus.closed then
        ⟨[⟨price, quantity⟩], [], some (status, filled)⟩
      else
        let cancels :=
          if status = OrderStatus.«open» then
            [_retry_cancel_order max_retries (cancel_resp attempt)]
          else []
        let price1 := _adjust_price max_slippage max_retries order_side
          price attempt (mark attempt)
        let rest := market_order_attempts max_retries max_slippage resp mark
          cancel_resp order_side quantity (attempt + 1) remaining price1
        ⟨⟨price, quantity⟩ :: rest.submissions, cancels ++ rest.cancels,
          rest.result⟩

/-- `PerpetualLiveOrderExecutionStrategy.execute_market_order`: run the
retry loop from attempt `0` with `max_retries` attempts remaining at the
requested price. -/
def execute_market_order (max_retries : ℕ) (max_slippage : ℚ)
    (resp : ℕ → AttemptOutcome) (mark : ℕ → Option ℚ)
    (cancel_resp : ℕ → ℕ → Bool) (order_side : OrderSide)
    (quantity price : ℚ) : MarketOrderRun :=
  market_order_attempts max_retries max_slippage resp mark cancel_resp
    order_side quantity 0 max_retries price

/-- The per-attempt submission price the claim prescribes:
`adjustment = max_slippage * attempt / max_retries` applied to the
requested price, upward for buys and downward for sells. -/
def claim_attempt_price (max_slippage : ℚ) (max_retries : ℕ)
    (order_side : OrderSide) (price : ℚ) (attempt : ℕ) : ℚ :=
  if order_side = OrderSide.buy then
    price * (1 + max_slippage * attempt / max_retries)
  else
    price * (1 - max_slippage * attempt / max_retries)

/-- Exchange behaviour of spec §8 scenario 4: the first market-order
attempt returns `OPEN` with `filled = 0.3`; later attempts stay `OPEN`
with no fill. -/
def partial_fill_responses : ℕ → AttemptOutcome :=
  fun i => if i = 0 then .response OrderStatus.«open» (3/10)
    else .response OrderStatus.«open» 0


/-- C3 counterexample: `max_retries = 3`, `max_slippage = 0.01`, live
market buy of quantity `1` at price `100`; attempt `0` returns `OPEN`
with `filled = 0.3` and is cancelled, later attempts return `OPEN` with
no fill, no mark price is available.  The code submits attempt `1` at
the unadjusted price `100` with the full quantity `1`, while the claim
prescribes the adjusted price `100·(1 + 0.01·1/3) = 301/3` and the
residual quantity `0.7`; attempt `2` goes out at `301/3`, not the
claim's `100·(1 + 0.01·2/3)`. -/
theorem C3_partial_fill_retry_counterexample :
    (execute_market_order 3 (1/100) partial_fill_responses
        (fun _ => none) (fun _ _ => true) OrderSide.buy 1 100).submissions =
      [⟨100, 1⟩, ⟨100, 1⟩, ⟨301/3, 1⟩] ∧
    (execute_market_order 3 (1/100) partial_fill_responses
        (fun _ => none) (fun _ _ => true) OrderSide.buy 1 100).result = none ∧
    claim_attempt_price (1/100) 3 OrderSide.buy 100 1 ≠ 100 ∧
    claim_attempt_price (1/100) 3 OrderSide.buy 100 2 ≠ 301/3 ∧
    (1 : ℚ) - 3/10 ≠ 1 := by
  norm_num +decide [execute_market_order, market_order_attempts,
    partial_fill_responses, _adjust_price, _retry_cancel_order,
    claim_attempt_price]

/-- The multiplicative factor the code applies to the price after a
completed non-`CLOSED` attempt `k` when no mark price is available:
`1 ± max_slippage / max_retries · k`. -/
def adj_factor (max_slippage : ℚ) (max_retries : ℕ)
    (order_side : OrderSide) (k : ℕ) : ℚ :=
  if order_side = OrderSide.buy then 1 + max_slippage / max_retries * k
  else 1 - max_slippage / max_retries * k

theorem adjust_price_none (max_slippage : ℚ) (max_retries : ℕ)
    (order_side : OrderSide) (price : ℚ) (attempt : ℕ) :
    _adjust_price max_slippage max_retries order_side price attempt none =
      price * adj_factor max_slippage max_retries order_side attempt := by
  cases order_side <;> simp [_adjust_price, adj_factor]

theorem market_order_attempts_quantity (max_retries : ℕ) (max_slippage : ℚ)
    (resp : ℕ → AttemptOutcome) (mark : ℕ → Option ℚ)
    (cancel_resp : ℕ → ℕ → Bool) (order_side : OrderSide) (quantity : ℚ) :
    ∀ (remaining attempt : ℕ) (price : ℚ),
      ∀ sub ∈ (market_order_attempts max_retries max_slippage resp mark
          cancel_resp order_side quantity attempt remaining price).submissions,
        sub.quantity = quantity := by
  intro remaining
  induction remaining with
  | zero =>
    intro attempt price sub h
    simp [market_order_attempts] at h
  | succ n ih =>
    intro attempt price sub h
    cases hRes : resp attempt with
    | exn =>
      simp only [market_order_attempts, hRes] at h
      rcases List.mem_cons.1 h with h1 | h1
      · rw [h1]
      · exact ih _ _ sub h1
    | response status filled =>
      by_cases hst : status = OrderStatus.closed
      · simp only [market_order_attempts, hRes, hst, if_pos rfl] at h
        rcases List.mem_cons.1 h with h1 | h1
        · rw [h1]
        · simp at h1
      · simp only [market_order_attempts, hRes, if_neg hst] at h
        rcases List.mem_cons.1 h with h1 | h1
        · rw [h1]
        · exact ih _ _ sub h1

theorem market_order_attempts_cancel_irrelevant (max_retries : ℕ)
    (max_slippage : ℚ) (resp : ℕ → AttemptOutcome) (mark : ℕ → Option ℚ)
    (c c2 : ℕ → ℕ → Bool) (order_side : OrderSide) (quantity : ℚ) :
    ∀ (remaining attempt : ℕ) (price : ℚ),
      (market_order_attempts max_retries max_slippage resp mark c
          order_side quantity attempt remaining price).submissions =
        (market_order_attempts max_retries max_slippage resp mark c2
          order_side quantity attempt remaining price).submissions ∧
      (market_order_attempts max_retries max_slippage resp mark c
          order_side quantity attempt remaining price).result =
        (market_order_attempts max_retries max_slippage resp mark c2
          order_side quantity attempt remaining price).result := by
  intro remaining
  induction remaining with
  | zero =>
    intro attempt price
    simp [market_order_attempts]
  | succ n ih =>
    intro attempt price
    cases hRes : resp attempt with
    | exn =>
      simp only [market_order_attempts, hRes]
      exact ⟨by rw [(ih _ _).1], (ih _ _).2⟩
    | response status filled =>
      by_cases hst : status = OrderStatus.closed
      · simp [market_order_attempts, hRes, hst]
      · simp only [market_order_attempts, hRes, if_neg hst]
        exact ⟨by rw [(ih _ _).1], (ih _ _).2⟩

theorem market_order_attempts_result_none_iff (max_retries : ℕ)
    (max_slippage : ℚ) (resp : ℕ → AttemptOutcome) (mark : ℕ → Option ℚ)
    (cancel_resp : ℕ → ℕ → Bool) (order_side : OrderSide) (quantity : ℚ) :
    ∀ (remaining attempt : ℕ) (price : ℚ),
      ((market_order_attempts max_retries max_slippage resp mark cancel_resp
          order_side quantity attempt remaining price).result = none ↔
        ∀ i, attempt ≤ i → i < attempt + remaining →
          ∀ f, resp i ≠ AttemptOutcome.response OrderStatus.closed f) := by
  intro remaining
  induction remaining with
  | zero =>
    intro attempt price
    simp only [market_order_attempts]
    constructor
    · intro _ i h1 h2 f
      omega
    · intro _
      trivial
  | succ n ih =>
    intro attempt price
    cases hRes : resp attempt with
    | exn =>
      simp only [market_order_attempts, hRes]
      rw [ih (attempt + 1) price]
      constructor
      · intro hAll i h1 h2 f
        by_cases hi : i = attempt
        · subst hi
          intro hcon
          rw [hRes] at hcon
          exact AttemptOutcome.noConfusion hcon
        · exact hAll i (by omega) (by omega) f
      · intro hAll i h1 h2 f
        exact hAll i (by omega) (by omega) f
    | response status filled =>
      by_cases hst : status = OrderStatus.closed
      · subst hst
        simp only [market_order_attempts, hRes, if_pos rfl]
        constructor
        · intro hcon
          exact Option.noConfusion hcon
        · intro hAll
          exact absurd hRes (hAll attempt (Nat.le_refl _) (by omega) filled)
      · simp only [market_order_attempts, hRes, if_neg hst]
        rw [ih (attempt + 1) _]
        constructor
        · intro hAll i h1 h2 f
          by_cases hi : i = attempt
          · subst hi
            intro hcon
            rw [hRes] at hcon
            injection hcon with hst2 _
            exact hst hst2
          · exact hAll i (by omega) (by omega) f
        · intro hAll i h1 h2 f
          exact hAll i (by omega) (by omega) f

theorem market_order_attempts_price_schedule (max_retries : ℕ)
    (max_slippage : ℚ) (resp : ℕ → AttemptOutcome) (mark : ℕ → Option ℚ)
    (cancel_resp : ℕ → ℕ → Bool) (order_side : OrderSide) (quantity : ℚ)
    (hmark : ∀ i, mark i = none) (hok : ∀ i, resp i ≠ AttemptOutcome.exn) :
    ∀ (remaining attempt : ℕ) (price : ℚ) (j : ℕ) (sub : Submission),
      (market_order_attempts max_retries max_slippage resp mark cancel_resp
          order_side quantity attempt remaining price).submissions.get? j =
        some sub →
      sub.price = price * ∏ k ∈ Finset.Ico attempt (attempt + j),
        adj_factor max_slippage max_retries order_side k := by
  intro remaining
  induction remaining with
  | zero =>
    intro attempt price j sub h
    simp [market_order_attempts] at h
  | succ n ih =>
    intro attempt price j sub h
    cases hRes : resp attempt with
    | exn => exact absurd hRes (hok attempt)
    | response status filled =>
      by_cases hst : status = OrderStatus.closed
      · subst hst
        have hsubs : (market_order_attempts max_retries max_slippage resp mark
            cancel_resp order_side quantity attempt (n + 1) price).submissions =
            [⟨price, quantity⟩] := by
          simp [market_order_attempts, hRes]
        rw [hsubs] at h
        cases j with
        | zero =>
          rw [List.get?_cons_zero] at h
          injection h with h
          rw [← h]
          simp
        | succ j =>
          rw [List.get?_cons_succ] at h
          simp at h
      · have hsubs : (market_order_attempts max_retries max_slippage resp mark
            cancel_resp order_side quantity attempt (n + 1) price).submissions =
            ⟨price, quantity⟩ :: (market_order_attempts max_retries max_slippage
              resp mark cancel_resp order_side quantity (attempt + 1) n
              (_adjust_price max_slippage max_retries order_side price attempt
                (mark attempt))).submissions := by
          simp [market_order_attempts, hRes, hst]
        rw [hsubs] at h
        cases j with
        | zero =>
          rw [List.get?_cons_zero] at h
          injection h with h
          rw [← h]
          simp
        | succ j =>
          rw [List.get?_cons_succ] at h
          have hrec := ih (attempt + 1) _ j sub h
          rw [hrec, hmark attempt, adjust_price_none]
          have hsplit : ∏ k ∈ Finset.Ico attempt (attempt + (j + 1)),
              adj_factor max_slippage max_retries order_side k =
              adj_factor max_slippage max_retries order_side attempt *
                ∏ k ∈ Finset.Ico (attempt + 1) (attempt + 1 + j),
                  adj_factor max_slippage max_retries order_side k := by
            rw [show attempt + 1 + j = attempt + (j + 1) by omega]
            exact Finset.prod_eq_prod_Ico_succ_bot (by omega) _
          rw [hsplit]
          ring

/-- C3 amended: for the live market-order retry loop, with no mark price
available and no exchange exceptions, (a) every attempt submits the full
original quantity — a partial fill is cancelled but the residual is not
carried into the retry; (b) neither the submissions nor the returned
order depend on the outcomes of the cancel attempts — a cancel failure
is only logged and execution continues; (c) `OrderExecutionFailedError`
is raised exactly when none of the `max_retries` attempts returns
`CLOSED`; and (d) attempt `j` is submitted at
`price · ∏ k < j, (1 ± max_slippage/max_retries·k)` — the adjustment
after attempt `k` uses index `k` and compounds multiplicatively, so
attempt `1` still goes out at the original price. -/
theorem C3_market_order_retry_amended (max_retries : ℕ) (max_slippage : ℚ)
    (resp : ℕ → AttemptOutcome) (mark : ℕ → Option ℚ)
    (cancel_resp cancel_resp2 : ℕ → ℕ → Bool) (order_side : OrderSide)
    (quantity price : ℚ)
    (hmark : ∀ i, mark i = none)
    (hok : ∀ i, resp i ≠ AttemptOutcome.exn) :
    (∀ sub ∈ (execute_market_order max_retries max_slippage resp mark
        cancel_resp order_side quantity price).submissions,
      sub.quantity = quantity) ∧
    ((execute_market_order max_retries max_slippage resp mark cancel_resp
        order_side quantity price).submissions =
      (execute_market_order max_retries max_slippage resp mark cancel_resp2
        order_side quantity price).submissions ∧
      (execute_market_order max_retries max_slippage resp mark cancel_resp
        order_side quantity price).result =
      (execute_market_order max_retries max_slippage resp mark cancel_resp2
        order_side quantity price).result) ∧
    ((execute_market_order max_retries max_slippage resp mark cancel_resp
        order_side quantity price).result = none ↔
      ∀ i < max_retries, ∀ f,
        resp i ≠ AttemptOutcome.response OrderStatus.closed f) ∧
    (∀ j sub, (execute_market_order max_retries max_slippage resp mark
        cancel_resp order_side quantity price).submissions.get? j = some sub →
      sub.price = price * ∏ k ∈ Finset.range j,
        adj_factor max_slippage max_retries order_side k) := by
  refine ⟨?_, ?_, ?_, ?_⟩
  · exact market_order_attempts_quantity max_retries max_slippage resp mark
      cancel_resp order_side quantity max_retries 0 price
  · exact market_order_attempts_cancel_irrelevant max_retries max_slippage
      resp mark cancel_resp cancel_resp2 order_side quantity max_retries 0 price
  · rw [execute_market_order,
      market_order_attempts_result_none_iff max_retries max_slippage resp mark
        cancel_resp order_side quantity max_retries 0 price]
    constructor
    · intro hAll i hi f
      exact hAll i (by omega) (by omega) f
    · intro hAll i h1 h2 f
      exact hAll i (by omega) f
  · intro j sub h
    have hp := market_order_attempts_price_schedule max_retries max_slippage
      resp mark cancel_resp order_side quantity hmark hok max_retries 0 price
      j sub h
    rw [hp, Finset.range_eq_Ico]
    norm_num

/-- Exchange behaviour for the C3 witness: every attempt fills fully. -/
def witness_resp : ℕ → AttemptOutcome :=
  fun _ => AttemptOutcome.response OrderStatus.closed 1

/-- Witness for C3 amended at `max_retries = 3`, `max_slippage = 0.01`,
buy of quantity `1` at price `100`, an exchange that always fills. -/
theorem C3_market_order_retry_amended_witness :
    (∀ i : ℕ, (fun _ : ℕ => (none : Option ℚ)) i = none) ∧
    (∀ i, witness_resp i ≠ AttemptOutcome.exn) ∧
    ((∀ sub ∈ (execute_market_order 3 (1/100) witness_resp (fun _ => none)
        (fun _ _ => false) OrderSide.buy 1 100).submissions,
        sub.quantity = 1) ∧
      ((execute_market_order 3 (1/100) witness_resp (fun _ => none)
          (fun _ _ => false) OrderSide.buy 1 100).submissions =
        (execute_market_order 3 (1/100) witness_resp (fun _ => none)
          (fun _ _ => true) OrderSide.buy 1 100).submissions ∧
        (execute_market_order 3 (1/100) witness_resp (fun _ => none)
          (fun _ _ => false) OrderSide.buy 1 100).result =
        (execute_market_order 3 (1/100) witness_resp (fun _ => none)
          (fun _ _ => true) OrderSide.buy 1 100).result) ∧
      ((execute_market_order 3 (1/100) witness_resp (fun _ => none)
          (fun _ _ => false) OrderSide.buy 1 100).result = none ↔
        ∀ i < 3, ∀ f,
          witness_resp i ≠ AttemptOutcome.response OrderStatus.closed f) ∧
      (∀ j sub, (execute_market_order 3 (1/100) witness_resp (fun _ => none)
          (fun _ _ => false) OrderSide.buy 1 100).submissions.get? j =
            some sub →
        sub.price = 100 * ∏ k ∈ Finset.range j,
          adj_factor (1/100) 3 OrderSide.buy k)) :=
  ⟨fun _ => rfl,
    fun i h => by simp [witness_resp] at h,
    C3_market_order_retry_amended 3 (1/100) witness_resp (fun _ => none)
      (fun _ _ => false) (fun _ _ => true) OrderSide.buy 1 100
      (fun _ => rfl) (fun i h => by simp [witness_resp] at h)⟩

end GridBot
